import Mathlib

set_option maxRecDepth 8000
set_option maxHeartbeats 1000000
set_option linter.unusedVariables false

namespace AICodeGen

/-! Shallow embedding of the core pipeline of `src/app.py` (AI Code Generator).
Strings are modelled as `List Char`; Python exceptions as `Except PyExc`. -/

/-- Whitespace predicate of Python `str.strip()` (ASCII range). -/
def pyIsSpace (c : Char) : Bool :=
  c == ' ' || c == '\t' || c == '\n' || c == '\r' || c == '\x0b' || c == '\x0c'

/-- Python `s.lstrip()`. -/
def lstripWs (s : List Char) : List Char := s.dropWhile pyIsSpace

/-- Python `s.rstrip()`. -/
def rstripWs (s : List Char) : List Char := (s.reverse.dropWhile pyIsSpace).reverse

/-- Python `s.strip()`. -/
def pyStrip (s : List Char) : List Char := lstripWs (rstripWs s)

/-- Boolean prefix test on character lists (Python `str.startswith`). -/
def startsWithL : List Char → List Char → Bool
  | [], _ => true
  | _ :: _, [] => false
  | p :: ps, c :: cs => p == c && startsWithL ps cs

/-- Python substring containment, `sep in s`. -/
def containsSub (sep : List Char) : List Char → Bool
  | [] => sep.isEmpty
  | c :: cs => startsWithL sep (c :: cs) || containsSub sep cs

/-- Split at the first (leftmost) occurrence of `sep`, returning the pieces
before and after it, as Python `s.split(sep, 1)` does when `sep` occurs. -/
def splitFirst (sep : List Char) : List Char → Option (List Char × List Char)
  | [] => if startsWithL sep [] then some ([], []) else none
  | c :: cs =>
    if startsWithL sep (c :: cs) then some ([], (c :: cs).drop sep.length)
    else
      match splitFirst sep cs with
      | some (a, b) => some (c :: a, b)
      | none => none

/-- Split at the last (rightmost) occurrence of `sep` (Python `s.rsplit(sep, 1)`),
implemented by searching the reversed list for the reversed separator. -/
def splitLast (sep s : List Char) : Option (List Char × List Char) :=
  match splitFirst sep.reverse s.reverse with
  | some (a, b) => some (b.reverse, a.reverse)
  | none => none

/-- The triple-backtick fence marker. -/
def bt : List Char := "```".toList

/-- Python `s.split(sep, 1)`: a list of one or two pieces. -/
def pySplit1 (s sep : List Char) : List (List Char) :=
  match splitFirst sep s with
  | some (a, b) => [a, b]
  | none => [s]

/-- Python `s.rsplit(sep, 1)`: a list of one or two pieces. -/
def pyRsplit1 (s sep : List Char) : List (List Char) :=
  match splitLast sep s with
  | some (a, b) => [a, b]
  | none => [s]

/-- Python exceptions that the embedded code can raise. -/
inductive PyExc where
  | indexError
  | keyError
deriving DecidableEq

/-- Python list indexing `l[i]` for non-negative `i`: raises `IndexError` when out
of range. -/
def pyIndex {α : Type} (l : List α) (i : Nat) : Except PyExc α :=
  match l[i]? with
  | some x => Except.ok x
  | none => Except.error PyExc.indexError

/-- Python `try: ... except Exception: return fallback` around an expression. -/
def pyTry {α : Type} (x : Except PyExc α) (fallback : α) : Except PyExc α :=
  match x with
  | Except.ok v => Except.ok v
  | Except.error _ => Except.ok fallback

/-- Exception-propagating sequencing (evaluation order of Python statements). -/
def pyBind {α β : Type} (x : Except PyExc α) (f : α → Except PyExc β) : Except PyExc β :=
  match x with
  | Except.ok v => f v
  | Except.error e => Except.error e

/-- Extraction part of `llm_fenced_block` (src/app.py lines 143-159), applied to the
completion text `content`: primary path on the exact fence tag, degraded path on any
fence, fallback to the raw text; each division guarded by a `try/except` that falls
back to the stripped content. -/
def llm_fenced_block_run (content lang_hint : List Char) : Except PyExc (List Char) :=
  let fence := bt ++ lang_hint
  if containsSub fence content then
    pyTry
      (pyBind (pyIndex (pySplit1 content fence) 1) (fun snippet =>
        pyBind (pyIndex (pySplit1 snippet bt) 0) (fun inner =>
          Except.ok (pyStrip inner))))
      (pyStrip content)
  else if containsSub bt content then
    pyTry
      (pyBind (pyIndex (pySplit1 content bt) 1) (fun snippet =>
        pyBind (pyIndex (pySplit1 snippet bt) 0) (fun inner =>
          Except.ok (pyStrip inner))))
      (pyStrip content)
  else
    Except.ok (pyStrip content)

/-- Text after the first occurrence of `marker` (the whole text if absent);
helper for the spec-side description of the extractor. -/
def afterFirstOcc (marker s : List Char) : List Char :=
  match splitFirst marker s with
  | some (_, b) => b
  | none => s

/-- Text before the next occurrence of `marker` (the whole text if absent). -/
def beforeNextOcc (marker s : List Char) : List Char :=
  match splitFirst marker s with
  | some (a, _) => a
  | none => s

/-- Modelled from the spec: the three-tier fallback extractor of spec section 4.4,
written from its words: (1) exact fence-tag match, (2) any fence, (3) raw text,
each result trimmed. -/
def extract_three_tier (rawText tag : List Char) : List Char :=
  if containsSub (bt ++ tag) rawText then
    pyStrip (beforeNextOcc bt (afterFirstOcc (bt ++ tag) rawText))
  else if containsSub bt rawText then
    pyStrip (beforeNextOcc bt (afterFirstOcc bt rawText))
  else pyStrip rawText

/-- Fenced-markdown wrapper `wrap_as_markdown_code` (src/app.py lines 161-163). -/
def wrap_as_markdown_code (snippet fence_lang : List Char) : List Char :=
  bt ++ fence_lang ++ '\n' :: pyStrip snippet ++ '\n' :: bt

/-- Mode-2 re-extraction shared by `on_generate_tests` (lines 196-203) and
`on_generate_docs` (lines 215-222): strip, and if the view starts with a fence,
drop the first line and the trailing fence inside a `try/except: pass` whose
failure leaves the stripped view unchanged. -/
def reextract_run (current_code_md : List Char) : Except PyExc (List Char) :=
  let code := pyStrip current_code_md
  if startsWithL bt code then
    pyTry
      (pyBind (pyIndex (pySplit1 code ['\n']) 1) (fun c1 =>
        pyBind (pyIndex (pyRsplit1 c1 bt) 0) (fun c2 =>
          Except.ok (pyStrip c2))))
      code
  else Except.ok code

/-- Pure value of the mode-2 re-extraction (it never raises; see
`reextract_run_eq`). -/
def reextract (current_code_md : List Char) : List Char :=
  let code := pyStrip current_code_md
  if startsWithL bt code then
    match splitFirst ['\n'] code with
    | some (_, c1) =>
      pyStrip
        (match splitLast bt c1 with
         | some (a, _) => a
         | none => c1)
    | none => code
  else code

/-! Basic lemmas about the string primitives. -/

lemma startsWithL_iff (p : List Char) : ∀ s : List Char,
    startsWithL p s = true ↔ ∃ t, s = p ++ t := by
  induction p with
  | nil =>
    intro s
    simp [startsWithL]
  | cons a ps ih =>
    intro s
    cases s with
    | nil =>
      simp [startsWithL]
    | cons c cs =>
      simp only [startsWithL, Bool.and_eq_true, beq_iff_eq, ih, List.cons_append,
        List.cons.injEq]
      constructor
      · rintro ⟨rfl, t, rfl⟩
        exact ⟨t, rfl, rfl⟩
      · rintro ⟨t, rfl, rfl⟩
        exact ⟨rfl, t, rfl⟩

lemma startsWithL_append_self (p t : List Char) : startsWithL p (p ++ t) = true :=
  (startsWithL_iff p (p ++ t)).mpr ⟨t, rfl⟩

lemma splitFirst_self (sep t : List Char) : splitFirst sep (sep ++ t) = some ([], t) := by
  cases sep with
  | nil =>
    cases t with
    | nil => simp [splitFirst, startsWithL]
    | cons c cs => simp [splitFirst, startsWithL]
  | cons s ss =>
    have hsw : startsWithL (s :: ss) ((s :: ss) ++ t) = true := startsWithL_append_self _ _
    rw [List.cons_append] at hsw ⊢
    rw [splitFirst, if_pos hsw]
    rw [← List.cons_append, List.length_cons]
    congr 1
    congr 1
    calc ((s :: ss) ++ t).drop (ss.length + 1) = (ss ++ t).drop ss.length := by
          rw [List.cons_append, List.drop_succ_cons]
      _ = t := List.drop_left ss t

lemma containsSub_eq_isSome (sep : List Char) : ∀ s : List Char,
    containsSub sep s = (splitFirst sep s).isSome := by
  intro s
  induction s with
  | nil =>
    cases sep with
    | nil => simp [containsSub, splitFirst, startsWithL]
    | cons a ps => simp [containsSub, splitFirst, startsWithL, List.isEmpty]
  | cons c cs ih =>
    by_cases h : startsWithL sep (c :: cs) = true
    · rw [containsSub, h]
      rw [splitFirst, if_pos h]
      simp
    · simp only [Bool.not_eq_true] at h
      rw [containsSub, h, Bool.false_or]
      rw [splitFirst, h]
      simp only [Bool.false_eq_true, if_false]
      rw [ih]
      cases hs : splitFirst sep cs with
      | none => simp
      | some ab => cases ab with | mk a b => simp

lemma splitFirst_some_append {sep s a b : List Char}
    (h : splitFirst sep s = some (a, b)) : s = a ++ sep ++ b := by
  induction s generalizing a with
  | nil =>
    rw [splitFirst] at h
    by_cases hsw : startsWithL sep [] = true
    · rw [if_pos hsw] at h
      cases sep with
      | nil =>
        simp at h
        obtain ⟨rfl, rfl⟩ := h
        rfl
      | cons x xs => simp [startsWithL] at hsw
    · rw [if_neg hsw] at h
      exact absurd h (by simp)
  | cons c cs ih =>
    rw [splitFirst] at h
    by_cases hsw : startsWithL sep (c :: cs) = true
    · rw [if_pos hsw] at h
      obtain ⟨t, ht⟩ := (startsWithL_iff sep (c :: cs)).mp hsw
      simp only [Option.some.injEq, Prod.mk.injEq] at h
      obtain ⟨rfl, rfl⟩ := h
      rw [ht, List.drop_left, List.nil_append]
    · rw [if_neg hsw] at h
      cases hs : splitFirst sep cs with
      | none => rw [hs] at h; exact absurd h (by simp)
      | some ab =>
        cases ab with
        | mk a' b' =>
          rw [hs] at h
          simp only [Option.some.injEq, Prod.mk.injEq] at h
          obtain ⟨rfl, rfl⟩ := h
          have := ih hs
          rw [List.cons_append, List.cons_append, ← this]

lemma splitFirst_single_notin {c : Char} {pre : List Char} (rest : List Char)
    (h : c ∉ pre) : splitFirst [c] (pre ++ c :: rest) = some (pre, rest) := by
  induction pre with
  | nil =>
    have : ([c] : List Char) ++ rest = c :: rest := rfl
    rw [List.nil_append, ← this, splitFirst_self]
  | cons d pre' ih =>
    have hdc : ¬(c = d) := fun hh => h (by simp [hh])
    have hsw : startsWithL [c] (d :: (pre' ++ c :: rest)) = false := by
      simp [startsWithL, hdc]
    rw [List.cons_append, splitFirst, hsw]
    simp only [Bool.false_eq_true, if_false]
    rw [ih (fun hm => h (List.mem_cons_of_mem _ hm))]

lemma splitFirst_single_none {c : Char} : ∀ {s : List Char},
    c ∉ s → splitFirst [c] s = none := by
  intro s
  induction s with
  | nil => intro _; simp [splitFirst, startsWithL]
  | cons d cs ih =>
    intro h
    have hdc : ¬(c = d) := fun hh => h (by simp [hh])
    have hsw : startsWithL [c] (d :: cs) = false := by simp [startsWithL, hdc]
    rw [splitFirst, hsw]
    simp only [Bool.false_eq_true, if_false]
    rw [ih (fun hm => h (List.mem_cons_of_mem _ hm))]

lemma pyTry_found (s sep : List Char) (h : containsSub sep s = true) (fb : List Char) :
    pyTry
      (pyBind (pyIndex (pySplit1 s sep) 1) (fun snippet =>
        pyBind (pyIndex (pySplit1 snippet bt) 0) (fun inner =>
          Except.ok (pyStrip inner)))) fb
      = Except.ok (pyStrip (beforeNextOcc bt (afterFirstOcc sep s))) := by
  have hs : (splitFirst sep s).isSome = true := by rw [← containsSub_eq_isSome]; exact h
  cases hsf : splitFirst sep s with
  | none => rw [hsf] at hs; simp at hs
  | some ab =>
    obtain ⟨a, b⟩ := ab
    simp only [pySplit1, hsf, afterFirstOcc]
    cases h2 : splitFirst bt b with
    | none => simp [pyIndex, pyBind, pyTry, beforeNextOcc, h2]
    | some ab2 =>
      obtain ⟨a2, b2⟩ := ab2
      simp [pyIndex, pyBind, pyTry, beforeNextOcc, h2]

lemma llm_run_eq_tier (content lang_hint : List Char) :
    llm_fenced_block_run content lang_hint = Except.ok (extract_three_tier content lang_hint) := by
  simp only [llm_fenced_block_run, extract_three_tier]
  by_cases h1 : containsSub (bt ++ lang_hint) content = true
  · rw [if_pos h1, if_pos h1, pyTry_found _ _ h1]
  · rw [if_neg h1, if_neg h1]
    by_cases h2 : containsSub bt content = true
    · rw [if_pos h2, if_pos h2, pyTry_found _ _ h2]
    · rw [if_neg h2, if_neg h2]

lemma reextract_run_eq (md : List Char) :
    reextract_run md = Except.ok (reextract md) := by
  simp only [reextract_run, reextract]
  by_cases h : startsWithL bt (pyStrip md) = true
  · rw [if_pos h, if_pos h]
    cases h1 : splitFirst ['\n'] (pyStrip md) with
    | none => simp [pySplit1, h1, pyIndex, pyBind, pyTry]
    | some ab =>
      obtain ⟨a, c1⟩ := ab
      simp only [pySplit1, h1]
      cases h2 : splitLast bt c1 with
      | none => simp [pyRsplit1, h2, pyIndex, pyBind, pyTry]
      | some ab2 =>
        obtain ⟨a2, b2⟩ := ab2
        simp [pyRsplit1, h2, pyIndex, pyBind, pyTry]
  · rw [if_neg h, if_neg h]

/-- C1: the fenced-block extractor follows the three-tier fallback order exactly:
primary path on the exact fence tag (text after the first occurrence of the tagged
marker and before the next marker, trimmed), degraded path on any fence, and
otherwise the whole raw text trimmed. -/
theorem C1_extractor_three_tier_fallback (rawText tag : List Char) :
    llm_fenced_block_run rawText tag = Except.ok (extract_three_tier rawText tag) :=
  llm_run_eq_tier rawText tag

/-- C2: the extraction step is total: for every input string and fence tag it
returns a string (an `ok` result) and never raises an exception. -/
theorem C2_extraction_total (rawText tag : List Char) :
    (llm_fenced_block_run rawText tag).isOk = true := by
  rw [llm_run_eq_tier]
  rfl

/-- C10: in the degraded path, an unclosed fence yields the entire tail after the
first fence marker, trimmed, not an error and not the raw text. -/
theorem C10_unclosed_fence_tail (rawText tag pre tl : List Char)
    (h1 : containsSub (bt ++ tag) rawText = false)
    (h2 : splitFirst bt rawText = some (pre, tl))
    (h3 : containsSub bt tl = false) :
    llm_fenced_block_run rawText tag = Except.ok (pyStrip tl) := by
  have hc : containsSub bt rawText = true := by rw [containsSub_eq_isSome, h2]; rfl
  have hn : splitFirst bt tl = none := by
    have h4 := containsSub_eq_isSome bt tl
    rw [h3] at h4
    cases he : splitFirst bt tl with
    | none => rfl
    | some x => rw [he] at h4; simp at h4
  simp only [llm_fenced_block_run]
  rw [if_neg (by rw [h1]; simp), if_pos hc]
  simp [pySplit1, h2, hn, pyIndex, pyBind, pyTry]

/-- Witness for C10 at a concrete unclosed-fence input. -/
theorem C10_witness :
    llm_fenced_block_run ("abc```def".toList) ("python".toList)
      = Except.ok (pyStrip ("def".toList)) :=
  C10_unclosed_fence_tail ("abc```def".toList) ("python".toList)
    ("abc".toList) ("def".toList) (by decide) (by decide) (by decide)

/-- C9: the mode-2 re-extraction is total and tolerant: on a non-empty view whose
stripped form begins with a fence but has no newline, the indexing error is
swallowed and the stripped view itself is returned, never raising to the caller. -/
theorem C9_reextract_tolerant (md : List Char) (h0 : md ≠ [])
    (h1 : startsWithL bt (pyStrip md) = true)
    (h2 : ('\n' : Char) ∉ pyStrip md) :
    reextract_run md = Except.ok (pyStrip md) := by
  have hsf : splitFirst ['\n'] (pyStrip md) = none := splitFirst_single_none h2
  simp only [reextract_run]
  rw [if_pos h1]
  simp [pySplit1, hsf, pyIndex, pyBind, pyTry]

/-- Witness for C9 at the concrete view consisting of a bare tagged fence marker. -/
theorem C9_witness :
    reextract_run ("```py".toList) = Except.ok (pyStrip ("```py".toList)) :=
  C9_reextract_tolerant ("```py".toList) (by decide) (by decide) (by decide)

lemma pyStrip_sandwich (a b : Char) (m : List Char)
    (ha : pyIsSpace a = false) (hb : pyIsSpace b = false) :
    pyStrip (a :: (m ++ [b])) = a :: (m ++ [b]) := by
  have hrev : (a :: (m ++ [b])).reverse = b :: (m.reverse ++ [a]) := by simp
  rw [pyStrip, rstripWs, hrev, List.dropWhile_cons, hb]
  simp only [Bool.false_eq_true, if_false]
  rw [← hrev, List.reverse_reverse, lstripWs, List.dropWhile_cons, ha]
  simp

lemma pyStrip_append_space (s : List Char) (c : Char) (hc : pyIsSpace c = true) :
    pyStrip (s ++ [c]) = pyStrip s := by
  have h : (s ++ [c]).reverse.dropWhile pyIsSpace = s.reverse.dropWhile pyIsSpace := by
    rw [List.reverse_append]
    simp [List.dropWhile_cons, hc]
  rw [pyStrip, pyStrip, rstripWs, rstripWs, h]

lemma splitLast_append_end (payload : List Char) :
    splitLast bt (payload ++ '\n' :: bt) = some (payload ++ ['\n'], []) := by
  have hbtrev : bt.reverse = bt := by decide
  have hrev : (payload ++ '\n' :: bt).reverse = bt ++ '\n' :: payload.reverse := by
    rw [List.reverse_append, List.reverse_cons, hbtrev, List.append_assoc]
    rfl
  rw [splitLast, hbtrev, hrev, splitFirst_self]
  simp

/-- C3 as stated is false: a payload with trailing whitespace does not survive the
wrap/re-extract round trip, because the wrapper strips the payload; concrete
counterexample with payload consisting of a letter and a trailing space. -/
theorem C3_cex :
    reextract (wrap_as_markdown_code ("x ".toList) ("python".toList)) ≠ "x ".toList := by
  decide

/-- C3 amended: for every payload that contains no fence marker and equals its own
stripped form, and every newline-free tag, wrapping and mode-2 re-extraction
return the payload unchanged. -/
theorem C3_roundtrip_stripped (payload tag : List Char)
    (hb : containsSub bt payload = false)
    (htag : ('\n' : Char) ∉ tag)
    (hstr : pyStrip payload = payload) :
    reextract (wrap_as_markdown_code payload tag) = payload := by
  have hg : bt = [Char.ofNat 96, Char.ofNat 96, Char.ofNat 96] := by decide
  have hw : wrap_as_markdown_code payload tag
      = Char.ofNat 96 :: ((Char.ofNat 96 :: Char.ofNat 96 ::
          (tag ++ '\n' :: (pyStrip payload ++ '\n' :: [Char.ofNat 96, Char.ofNat 96])))
          ++ [Char.ofNat 96]) := by
    rw [wrap_as_markdown_code, hg]
    simp
  have hstrip : pyStrip (wrap_as_markdown_code payload tag)
      = wrap_as_markdown_code payload tag := by
    rw [hw]
    exact pyStrip_sandwich _ _ _ (by decide) (by decide)
  have hsw : startsWithL bt (wrap_as_markdown_code payload tag) = true := by
    rw [wrap_as_markdown_code]
    exact startsWithL_append_self _ _
  have hw2 : wrap_as_markdown_code payload tag
      = (bt ++ tag) ++ '\n' :: (pyStrip payload ++ '\n' :: bt) := by
    rw [wrap_as_markdown_code]
    simp
  have hnotin : ('\n' : Char) ∉ bt ++ tag := by
    rw [List.mem_append]
    rintro (h | h)
    · revert h; decide
    · exact htag h
  have hsf : splitFirst ['\n'] ((bt ++ tag) ++ '\n' :: (pyStrip payload ++ '\n' :: bt))
      = some (bt ++ tag, pyStrip payload ++ '\n' :: bt) :=
    splitFirst_single_notin _ hnotin
  simp only [reextract]
  rw [hstrip, if_pos hsw, hw2, hsf]
  simp only [splitLast_append_end]
  rw [pyStrip_append_space _ _ (by decide), hstr, hstr]

/-- Witness for the amended C3 at a concrete stripped payload. -/
theorem C3_witness :
    reextract (wrap_as_markdown_code ("x".toList) ("python".toList)) = "x".toList :=
  C3_roundtrip_stripped ("x".toList) ("python".toList) (by decide) (by decide) (by decide)

/-! The artifact writer `write_temp_file` (src/app.py lines 168-175). The
timestamp `datetime.now().strftime("%Y%m%d-%H%M%S")` is modelled as a function of
the clock fields; the temp-directory prefix added by `os.path.join` is constant
per process and is omitted, so a returned path is modelled by its filename
component, and the written file by the pair (filename, content). -/

/-- Decimal digit character of `n % 10`. -/
def digitChar (n : Nat) : Char :=
  if n % 10 = 0 then '0'
  else if n % 10 = 1 then '1'
  else if n % 10 = 2 then '2'
  else if n % 10 = 3 then '3'
  else if n % 10 = 4 then '4'
  else if n % 10 = 5 then '5'
  else if n % 10 = 6 then '6'
  else if n % 10 = 7 then '7'
  else if n % 10 = 8 then '8'
  else '9'

/-- Two-digit zero-padded field (strftime `%m`, `%d`, `%H`, `%M`, `%S` for values
below 100). -/
def pad2 (n : Nat) : List Char := [digitChar (n / 10), digitChar n]

/-- Four-digit year field (strftime `%Y` for years 1000-9999). -/
def pad4 (n : Nat) : List Char :=
  [digitChar (n / 1000), digitChar (n / 100), digitChar (n / 10), digitChar n]

/-- The timestamp string `datetime.now().strftime("%Y%m%d-%H%M%S")` as a function
of the clock fields. -/
def strftime_ts (y mo d h mi s : Nat) : List Char :=
  pad4 y ++ pad2 mo ++ pad2 d ++ '-' :: (pad2 h ++ pad2 mi ++ pad2 s)

/-- Python `os.path.splitext` on a bare filename (no directory separators): split
at the last dot, except when every character before that dot is itself a dot, in
which case the extension is empty. -/
def splitext (s : List Char) : List Char × List Char :=
  match splitLast ['.'] s with
  | some (base, ext) => if base.any (fun c => c != '.') then (base, '.' :: ext) else (s, [])
  | none => (s, [])

/-- Filename produced by `write_temp_file`: timestamp inserted between base and
extension, or appended with a `.txt` suffix when the filename has no extension. -/
def write_temp_file_name (filename ts : List Char) : List Char :=
  let be := splitext filename
  if be.2 ≠ [] then be.1 ++ '-' :: ts ++ be.2 else filename ++ '-' :: ts ++ ".txt".toList

/-- The artifact writer: returns the (filename, written content) pair. -/
def write_temp_file (text filename ts : List Char) : List Char × List Char :=
  (write_temp_file_name filename ts, text)

lemma digitChar_isDigit (n : Nat) : (digitChar n).isDigit = true := by
  rw [digitChar]
  repeat' split
  all_goals decide

lemma wtf_name_ext (base ext filename ts : List Char)
    (h : splitext filename = (base, ext)) (hne : ext ≠ []) :
    write_temp_file_name filename ts = base ++ '-' :: ts ++ ext := by
  simp only [write_temp_file_name, h]
  rw [if_pos hne]

/-- C6: persisting a payload under "main.py" yields a filename of the shape
`main-<YYYYMMDD-HHMMSS>.py` (timestamp of 8 digits, a dash and 6 digits inserted
between base and extension) with the payload written unchanged; a filename with
no extension gets `-<timestamp>.txt` appended. Clock-field bounds reflect the
ranges `datetime.now()` can produce (with a four-digit year). -/
theorem C6_persist_name_and_content (payload filename : List Char) (y mo d h mi s : Nat)
    (hy1 : 1000 ≤ y) (hy2 : y ≤ 9999) (hmo : mo ≤ 99) (hd : d ≤ 99)
    (hh : h ≤ 99) (hmi : mi ≤ 99) (hs : s ≤ 99) :
    write_temp_file payload ("main.py".toList) (strftime_ts y mo d h mi s)
        = ("main-".toList ++ strftime_ts y mo d h mi s ++ ".py".toList, payload)
      ∧ (∃ dts hms : List Char,
          strftime_ts y mo d h mi s = dts ++ '-' :: hms
            ∧ dts.length = 8 ∧ dts.all Char.isDigit = true
            ∧ hms.length = 6 ∧ hms.all Char.isDigit = true)
      ∧ ((splitext filename).2 = []
          → (write_temp_file payload filename (strftime_ts y mo d h mi s)).1
              = filename ++ '-' :: strftime_ts y mo d h mi s ++ ".txt".toList) := by
  have hsx : splitext ("main.py".toList) = ("main".toList, ".py".toList) := by decide
  refine ⟨?_, ?_, ?_⟩
  · rw [write_temp_file, wtf_name_ext _ _ _ _ hsx (by decide)]
    rw [show ("main-".toList : List Char) = "main".toList ++ ['-'] from by decide]
    simp [List.append_assoc]
  · refine ⟨pad4 y ++ pad2 mo ++ pad2 d, pad2 h ++ pad2 mi ++ pad2 s, ?_, ?_, ?_, ?_, ?_⟩
    · simp [strftime_ts, List.append_assoc]
    · simp [pad4, pad2]
    · simp [pad4, pad2, digitChar_isDigit]
    · simp [pad2]
    · simp [pad2, digitChar_isDigit]
  · intro hext
    rw [write_temp_file]
    simp only [write_temp_file_name, hext]
    simp

/-- Witness for C6 at a concrete payload, clock reading and extensionless name. -/
theorem C6_witness :
    write_temp_file ("hello".toList) ("main.py".toList) (strftime_ts 2026 10 12 3 4 5)
        = ("main-".toList ++ strftime_ts 2026 10 12 3 4 5 ++ ".py".toList, "hello".toList)
      ∧ ((splitext ("README".toList)).2 = []
          → (write_temp_file ("hello".toList) ("README".toList)
                (strftime_ts 2026 10 12 3 4 5)).1
              = "README".toList ++ '-' :: strftime_ts 2026 10 12 3 4 5 ++ ".txt".toList) := by
  have h := C6_persist_name_and_content ("hello".toList) ("README".toList) 2026 10 12 3 4 5
    (by decide) (by decide) (by decide) (by decide) (by decide) (by decide) (by decide)
  exact ⟨h.1, h.2.2⟩

/-! Model of `textwrap.dedent` and the prompt builders. `dedent` first empties
whitespace-only lines, then removes the longest common space/tab prefix of the
remaining non-empty lines from every line that carries it. -/

/-- Space or tab, the characters regarded by `textwrap.dedent`. -/
def isIndentChar (c : Char) : Bool := c == ' ' || c == '\t'

/-- Python `text.split("\n")`. -/
def splitLines : List Char → List (List Char)
  | [] => [[]]
  | c :: cs =>
    if c = '\n' then [] :: splitLines cs
    else
      match splitLines cs with
      | l :: ls => (c :: l) :: ls
      | [] => [[c]]

/-- A line consisting solely of one or more spaces/tabs. -/
def wsOnlyLine (l : List Char) : Bool := !l.isEmpty && l.all isIndentChar

/-- Leading space/tab run of a line. -/
def lineIndent (l : List Char) : List Char := l.takeWhile isIndentChar

/-- Longest common prefix of two character lists. -/
def commonPrefix : List Char → List Char → List Char
  | a :: as, b :: bs => if a = b then a :: commonPrefix as bs else []
  | _, _ => []

/-- Longest common prefix of a list of indents (empty when there are none). -/
def marginOf : List (List Char) → List Char
  | [] => []
  | i :: rest => rest.foldl commonPrefix i

/-- Python `"\n".join(...)`. -/
def joinLines : List (List Char) → List Char
  | [] => []
  | [l] => l
  | l :: ls => l ++ '\n' :: joinLines ls

/-- Per-line work of `textwrap.dedent`: empty the whitespace-only lines, compute
the margin from the non-empty lines, then strip the margin from lines carrying it. -/
def dedentLines (ls : List (List Char)) : List (List Char) :=
  let emptied := ls.map (fun l => if wsOnlyLine l then [] else l)
  let margin := marginOf ((emptied.filter (fun l => !l.isEmpty)).map lineIndent)
  emptied.map (fun l => if startsWithL margin l then l.drop margin.length else l)

/-- `textwrap.dedent` on a whole text. -/
def dedent (text : List Char) : List Char := joinLines (dedentLines (splitLines text))

/-- Language profile record: one row of `LANG_PROFILES` (src/app.py lines 26-60). -/
structure LangProfile where
  fence_lang : List Char
  file_ext : List Char
  test_framework : List Char
  test_hint : List Char
  run_hint : List Char
  doc_hint : List Char
  example_filename : List Char
  example_test_filename : List Char
  readme_name : List Char
deriving DecidableEq

def pythonProfile : LangProfile where
  fence_lang := "python".toList
  file_ext := "py".toList
  test_framework := "pytest".toList
  test_hint := "Use pytest. Put tests in a single test file with clear, runnable test functions.".toList
  run_hint := "Run the program with: python main.py\nRun tests with: pytest -q".toList
  doc_hint := "Include setup, run instructions, and examples for CLI usage if relevant.".toList
  example_filename := "main.py".toList
  example_test_filename := "test_main.py".toList
  readme_name := "README.md".toList

def javaProfile : LangProfile where
  fence_lang := "java".toList
  file_ext := "java".toList
  test_framework := "JUnit 5".toList
  test_hint := "Use JUnit 5. Provide a single test class with multiple test methods.".toList
  run_hint := "If using Maven: mvn -q test\nCompile/run manually with javac/java as applicable.".toList
  doc_hint := "Explain how to compile and run via Maven or javac. Include classpath notes.".toList
  example_filename := "TinyUrl.java".toList
  example_test_filename := "TinyUrlTest.java".toList
  readme_name := "README.md".toList

def javascriptProfile : LangProfile where
  fence_lang := "javascript".toList
  file_ext := "js".toList
  test_framework := "vitest".toList
  test_hint := "Use vitest. Export functions for testability and include a few focused tests.".toList
  run_hint := "Run with: node main.js\nRun tests with: npx vitest run".toList
  doc_hint := "Document Node version, install instructions, and test commands.".toList
  example_filename := "main.js".toList
  example_test_filename := "main.test.js".toList
  readme_name := "README.md".toList

/-- The `LANG_PROFILES` dict as a lookup function. -/
def lookupProfile (language : List Char) : Option LangProfile :=
  if language = "python".toList then some pythonProfile
  else if language = "java".toList then some javaProfile
  else if language = "javascript".toList then some javascriptProfile
  else none

/-- Python subscript `LANG_PROFILES[language]`: raises `KeyError` when absent. -/
def subscriptProfile (language : List Char) : Except PyExc LangProfile :=
  match lookupProfile language with
  | some p => Except.ok p
  | none => Except.error PyExc.keyError

/-! Segments of the `code_prompt` f-string literal (src/app.py lines 67-82), in
splice order around the interpolated values. -/

def code_tpl_A : List Char := "\n    You are a senior ".toList
def code_tpl_B : List Char :=
  " engineer. Generate a single, self-contained source file.\n\n    Requirements:\n    ".toList
def code_tpl_C : List Char :=
  "\n\n    Constraints:\n    - Use idiomatic, minimal, production-quality ".toList
def code_tpl_D : List Char :=
  ".\n    - Include clear function/class names.\n    - Avoid placeholders and pseudo-code.\n    - If configuration is needed, include sane defaults in code.\n    - Provide only the code for one file. Do NOT include explanations.\n    - Prefer a filename like: ".toList
def code_tpl_E : List Char :=
  "\n\n    Output strictly as a fenced code block with the correct language.\n    ".toList

/-- Body of `code_prompt` given the already looked-up profile: the dedented
f-string with the stripped requirements and profile fields interpolated. -/
def code_template (requirements language : List Char) (p : LangProfile) : List Char :=
  dedent (code_tpl_A ++ language ++ code_tpl_B ++ pyStrip requirements
    ++ code_tpl_C ++ language ++ code_tpl_D ++ p.example_filename ++ code_tpl_E)

/-- Prompt builder `code_prompt` (src/app.py lines 65-82); the profile subscript
raises `KeyError` for an unknown language. -/
def code_prompt (requirements language : List Char) : Except PyExc (List Char) :=
  pyBind (subscriptProfile language) (fun p =>
    Except.ok (code_template requirements language p))

/-- Body of `tests_prompt` given the already looked-up profile. -/
def tests_template (code language : List Char) (p : LangProfile) : List Char :=
  dedent ("\n    You are a senior ".toList ++ language
    ++ " engineer. Write unit tests for the code below.\n\n    Original code:\n    ```\n    ".toList
    ++ code
    ++ "\n    ```\n\n    Testing requirements:\n    - Framework: ".toList
    ++ p.test_framework
    ++ ".\n    - ".toList
    ++ p.test_hint
    ++ "\n    - Cover happy paths and at least one edge case.\n    - Provide only ONE test file named like ".toList
    ++ p.example_test_filename
    ++ ".\n    - Output strictly as a fenced code block with the correct language or \x27text\x27 if needed.\n    ".toList)

/-- Prompt builder `tests_prompt` (src/app.py lines 84-100). -/
def tests_prompt (code language : List Char) : Except PyExc (List Char) :=
  pyBind (subscriptProfile language) (fun p =>
    Except.ok (tests_template code language p))

/-- Body of `docs_prompt` given the already looked-up profile. -/
def docs_template (code language : List Char) (p : LangProfile) : List Char :=
  dedent ("\n    You are a technical writer. Produce a concise README.md for this project.\n\n    Code to document:\n    ```\n    ".toList
    ++ code
    ++ "\n    ```\n\n    Include:\n    - Project overview and core features\n    - Quick start\n    - How to run the program\n    - How to run tests (".toList
    ++ p.test_framework
    ++ ")\n    - Notes / limitations\n    - Example usage\n\n    Hints:\n    - ".toList
    ++ p.run_hint
    ++ "\n    - ".toList
    ++ p.doc_hint
    ++ "\n\n    Output strictly as a fenced code block marked \x27markdown\x27 with a valid README.md.\n    ".toList)

/-- Prompt builder `docs_prompt` (src/app.py lines 102-125). -/
def docs_prompt (code language : List Char) : Except PyExc (List Char) :=
  pyBind (subscriptProfile language) (fun p =>
    Except.ok (docs_template code language p))

/-! Lemmas about `dedent`, leading to occurrence preservation for interpolated
fragments of the prompt templates. -/

lemma splitLines_cons (c : Char) (cs : List Char) :
    splitLines (c :: cs)
      = if c = '\n' then [] :: splitLines cs
        else
          match splitLines cs with
          | l :: ls => (c :: l) :: ls
          | [] => [[c]] := rfl

lemma splitLines_ne_nil : ∀ s : List Char, splitLines s ≠ [] := by
  intro s
  induction s with
  | nil => simp [splitLines]
  | cons c cs ih =>
    rw [splitLines_cons]
    by_cases h : c = '\n'
    · rw [if_pos h]; simp
    · rw [if_neg h]
      cases hs : splitLines cs with
      | nil => simp
      | cons l ls => simp

lemma splitLines_append (m y : List Char) (hm : ('\n' : Char) ∉ m) :
    splitLines (m ++ '\n' :: y) = m :: splitLines y := by
  induction m with
  | nil => rw [List.nil_append, splitLines_cons, if_pos rfl]
  | cons c m' ih =>
    have hc : ¬(c = '\n') := fun h => hm (by simp [h])
    rw [List.cons_append, splitLines_cons, if_neg hc,
      ih (fun h => hm (List.mem_cons_of_mem _ h))]

lemma mem_tail_splitLines (x : List Char) (m y : List Char) (hm : ('\n' : Char) ∉ m) :
    m ∈ (splitLines (x ++ '\n' :: (m ++ '\n' :: y))).tail := by
  induction x with
  | nil =>
    rw [List.nil_append, splitLines_cons, if_pos rfl, splitLines_append m y hm]
    simp
  | cons c x' ih =>
    by_cases hc : c = '\n'
    · subst hc
      rw [List.cons_append, splitLines_cons, if_pos rfl]
      simpa using List.mem_of_mem_tail ih
    · rw [List.cons_append, splitLines_cons, if_neg hc]
      cases hs : splitLines (x' ++ '\n' :: (m ++ '\n' :: y)) with
      | nil => exact absurd hs (splitLines_ne_nil _)
      | cons l ls =>
        have h2 := ih
        rw [hs] at h2
        simpa using h2

lemma startsWithL_refl (p : List Char) : startsWithL p p = true := by
  have h := startsWithL_append_self p []
  simpa using h

lemma commonPrefix_left : ∀ a b : List Char, startsWithL (commonPrefix a b) a = true := by
  intro a
  induction a with
  | nil => intro b; cases b <;> simp [commonPrefix, startsWithL]
  | cons x as ih =>
    intro b
    cases b with
    | nil => simp [commonPrefix, startsWithL]
    | cons y bs =>
      rw [commonPrefix]
      by_cases h : x = y
      · rw [if_pos h]
        simp [startsWithL, ih bs]
      · rw [if_neg h]
        simp [startsWithL]

lemma commonPrefix_right : ∀ a b : List Char, startsWithL (commonPrefix a b) b = true := by
  intro a
  induction a with
  | nil => intro b; cases b <;> simp [commonPrefix, startsWithL]
  | cons x as ih =>
    intro b
    cases b with
    | nil => simp [commonPrefix, startsWithL]
    | cons y bs =>
      rw [commonPrefix]
      by_cases h : x = y
      · rw [if_pos h]
        simp [startsWithL, h, ih bs]
      · rw [if_neg h]
        simp [startsWithL]

lemma startsWithL_trans {a b c : List Char}
    (hab : startsWithL a b = true) (hbc : startsWithL b c = true) :
    startsWithL a c = true := by
  obtain ⟨t1, rfl⟩ := (startsWithL_iff _ _).mp hab
  obtain ⟨t2, rfl⟩ := (startsWithL_iff _ _).mp hbc
  rw [List.append_assoc]
  exact startsWithL_append_self _ _

lemma foldl_commonPrefix (l : List (List Char)) : ∀ acc : List Char,
    startsWithL (l.foldl commonPrefix acc) acc = true
      ∧ ∀ j ∈ l, startsWithL (l.foldl commonPrefix acc) j = true := by
  induction l with
  | nil => intro acc; exact ⟨startsWithL_refl acc, by simp⟩
  | cons i l ih =>
    intro acc
    rw [List.foldl_cons]
    obtain ⟨h1, h2⟩ := ih (commonPrefix acc i)
    refine ⟨startsWithL_trans h1 (commonPrefix_left acc i), ?_⟩
    intro j hj
    rcases List.mem_cons.mp hj with rfl | hj2
    · exact startsWithL_trans h1 (commonPrefix_right acc j)
    · exact h2 j hj2

lemma marginOf_sw (inds : List (List Char)) (i : List Char) (h : i ∈ inds) :
    startsWithL (marginOf inds) i = true := by
  cases inds with
  | nil => cases h
  | cons a rest =>
    rw [marginOf]
    rcases List.mem_cons.mp h with rfl | h2
    · exact (foldl_commonPrefix rest i).1
    · exact (foldl_commonPrefix rest a).2 i h2

/-- Occurrence of `pat` as a contiguous substring of `s`. -/
def occursIn (pat s : List Char) : Prop := ∃ u v, s = u ++ pat ++ v

lemma occursIn_trans {p q s : List Char} (h1 : occursIn p q) (h2 : occursIn q s) :
    occursIn p s := by
  obtain ⟨u1, v1, rfl⟩ := h1
  obtain ⟨u2, v2, rfl⟩ := h2
  exact ⟨u2 ++ u1, v1 ++ v2, by simp [List.append_assoc]⟩

lemma occursIn_joinLines {l : List Char} : ∀ {ls : List (List Char)},
    l ∈ ls → occursIn l (joinLines ls) := by
  intro ls
  induction ls with
  | nil => intro h; cases h
  | cons a as ih =>
    intro h
    rcases List.mem_cons.mp h with rfl | h2
    · cases as with
      | nil => exact ⟨[], [], by simp [joinLines]⟩
      | cons b bs => exact ⟨[], '\n' :: joinLines (b :: bs), by simp [joinLines]⟩
    · cases as with
      | nil => cases h2
      | cons b bs =>
        obtain ⟨u, v, huv⟩ := ih h2
        refine ⟨a ++ '\n' :: u, v, ?_⟩
        have hj : joinLines (a :: b :: bs) = a ++ '\n' :: joinLines (b :: bs) := rfl
        rw [hj, huv]
        simp

lemma containsSub_append_self (pat v : List Char) : containsSub pat (pat ++ v) = true := by
  cases hps : pat ++ v with
  | nil =>
    have hp : pat = [] := by
      cases pat with
      | nil => rfl
      | cons a as => simp at hps
    subst hp
    simp [containsSub]
  | cons c cs =>
    rw [containsSub]
    have hsw : startsWithL pat (c :: cs) = true := by
      rw [← hps]; exact startsWithL_append_self pat v
    simp [hsw]

lemma containsSub_cons (pat : List Char) (c : Char) (u : List Char)
    (h : containsSub pat u = true) : containsSub pat (c :: u) = true := by
  rw [containsSub, h, Bool.or_true]

lemma containsSub_of_occursIn {pat s : List Char} (h : occursIn pat s) :
    containsSub pat s = true := by
  obtain ⟨u, v, rfl⟩ := h
  induction u with
  | nil => simpa using containsSub_append_self pat v
  | cons c u' ih =>
    rw [List.cons_append]
    exact containsSub_cons _ _ _ ih

lemma dropWhile_head_false (p : Char → Bool) : ∀ (l : List Char) (c : Char) (t : List Char),
    l.dropWhile p = c :: t → p c = false := by
  intro l
  induction l with
  | nil => intro c t h; simp [List.dropWhile] at h
  | cons a as ih =>
    intro c t h
    rw [List.dropWhile_cons] at h
    by_cases hp : p a = true
    · rw [hp] at h
      simp at h
      exact ih c t h
    · rw [Bool.not_eq_true] at hp
      rw [hp] at h
      simp at h
      exact h.1 ▸ hp

lemma mem_of_mem_dropWhile (p : Char → Bool) : ∀ (l : List Char) {c : Char},
    c ∈ l.dropWhile p → c ∈ l := by
  intro l
  induction l with
  | nil => intro c h; simp at h
  | cons a as ih =>
    intro c h
    rw [List.dropWhile_cons] at h
    by_cases hp : p a = true
    · rw [hp] at h
      simp at h
      exact List.mem_cons_of_mem _ (ih h)
    · rw [Bool.not_eq_true] at hp
      rw [hp] at h
      simpa using h

lemma mem_of_mem_pyStrip {c : Char} {s : List Char} (h : c ∈ pyStrip s) : c ∈ s := by
  rw [pyStrip, lstripWs] at h
  have h2 := mem_of_mem_dropWhile _ _ h
  rw [rstripWs, List.mem_reverse] at h2
  have h3 := mem_of_mem_dropWhile _ _ h2
  exact List.mem_reverse.mp h3

lemma pyStrip_head_false {s : List Char} {c : Char} {t : List Char}
    (h : pyStrip s = c :: t) : pyIsSpace c = false := by
  rw [pyStrip, lstripWs] at h
  exact dropWhile_head_false _ _ _ _ h

lemma isIndentChar_false {c : Char} (h : pyIsSpace c = false) : isIndentChar c = false := by
  rw [pyIsSpace] at h
  simp only [Bool.or_eq_false_iff] at h
  rw [isIndentChar, h.1.1.1.1.1, h.1.1.1.1.2]
  rfl

/-- The four-space indent of the template lines. -/
def sp4 : List Char := [' ', ' ', ' ', ' ']

lemma isIndentChar_space : isIndentChar ' ' = true := by decide

lemma lineIndent_sp4_cons {c : Char} (t : List Char) (hc : isIndentChar c = false) :
    lineIndent (sp4 ++ c :: t) = sp4 := by
  simp [lineIndent, sp4, List.takeWhile_cons, hc, isIndentChar_space]

lemma wsOnlyLine_false_of_mem {l : List Char} {c : Char} (hc : c ∈ l)
    (h : isIndentChar c = false) : wsOnlyLine l = false := by
  rw [wsOnlyLine]
  have hall : l.all isIndentChar = false := by
    rw [List.all_eq_false]
    exact ⟨c, hc, by simp [h]⟩
  rw [hall, Bool.and_false]

lemma dedentLines_occursIn (ls : List (List Char)) (ind r : List Char)
    (hmem : (ind ++ r) ∈ ls)
    (hws : wsOnlyLine (ind ++ r) = false)
    (hne : ind ++ r ≠ [])
    (hind : lineIndent (ind ++ r) = ind) :
    ∃ l ∈ dedentLines ls, occursIn r l := by
  simp only [dedentLines]
  have hfm : (fun l => if wsOnlyLine l then [] else l) (ind ++ r) = ind ++ r := by
    simp [hws]
  have hmem1 : (ind ++ r) ∈ ls.map (fun l => if wsOnlyLine l then [] else l) := by
    have h := List.mem_map_of_mem (fun l => if wsOnlyLine l then [] else l) hmem
    rwa [hfm] at h
  set E := ls.map (fun l => if wsOnlyLine l then [] else l) with hE
  set margin := marginOf ((E.filter (fun l => !l.isEmpty)).map lineIndent) with hM
  have hmemf : (ind ++ r) ∈ E.filter (fun l => !l.isEmpty) := by
    rw [List.mem_filter]
    refine ⟨hmem1, ?_⟩
    cases hic : ind ++ r with
    | nil => exact absurd hic hne
    | cons a b => simp
  have hsw_ind : startsWithL margin ind = true := by
    rw [hM, ← hind]
    exact marginOf_sw _ _ (List.mem_map_of_mem lineIndent hmemf)
  have hswm : startsWithL margin (ind ++ r) = true :=
    startsWithL_trans hsw_ind (startsWithL_append_self ind r)
  have hgm : (fun l => if startsWithL margin l then l.drop margin.length else l) (ind ++ r)
      = (ind ++ r).drop margin.length := by
    simp [hswm]
  refine ⟨(ind ++ r).drop margin.length, ?_, ?_⟩
  · have h := List.mem_map_of_mem
      (fun l => if startsWithL margin l then l.drop margin.length else l) hmem1
    rwa [hgm] at h
  · obtain ⟨t, ht⟩ := (startsWithL_iff _ _).mp hsw_ind
    rw [ht, List.append_assoc, List.drop_left]
    exact ⟨t, [], by simp⟩

lemma dedent_occursIn_line (x y ind r : List Char)
    (hnl : ('\n' : Char) ∉ ind ++ r)
    (hws : wsOnlyLine (ind ++ r) = false)
    (hne : ind ++ r ≠ [])
    (hind : lineIndent (ind ++ r) = ind) :
    occursIn r (dedent (x ++ '\n' :: ((ind ++ r) ++ '\n' :: y))) := by
  rw [dedent]
  have hmem : (ind ++ r) ∈ splitLines (x ++ '\n' :: ((ind ++ r) ++ '\n' :: y)) :=
    List.mem_of_mem_tail (mem_tail_splitLines x (ind ++ r) y hnl)
  obtain ⟨l, hl, hocc⟩ := dedentLines_occursIn _ ind r hmem hws hne hind
  exact occursIn_trans hocc (occursIn_joinLines hl)

lemma occursIn_nil (s : List Char) : occursIn [] s := ⟨[], s, by simp⟩

lemma code_tpl_B_seam : code_tpl_B
    = " engineer. Generate a single, self-contained source file.\n\n    Requirements:".toList
      ++ '\n' :: sp4 := by decide

lemma code_tpl_C_seam : code_tpl_C
    = '\n' :: "\n    Constraints:\n    - Use idiomatic, minimal, production-quality ".toList := by
  decide

lemma code_tpl_D_seam : code_tpl_D
    = ".\n    - Include clear function/class names.\n    - Avoid placeholders and pseudo-code.\n    - If configuration is needed, include sane defaults in code.\n    - Provide only the code for one file. Do NOT include explanations.".toList
      ++ '\n' :: (sp4 ++ "- Prefer a filename like: ".toList) := by decide

lemma code_tpl_E_seam : code_tpl_E
    = '\n' :: "\n    Output strictly as a fenced code block with the correct language.\n    ".toList := by
  decide

lemma code_template_contains_req (requirements language : List Char) (p : LangProfile)
    (hR : ('\n' : Char) ∉ requirements) :
    occursIn (pyStrip requirements) (code_template requirements language p) := by
  rw [code_template]
  cases hrc : pyStrip requirements with
  | nil => exact occursIn_nil _
  | cons c t =>
    rw [← hrc]
    have hps : pyIsSpace c = false := pyStrip_head_false hrc
    have hci : isIndentChar c = false := isIndentChar_false hps
    have hT : code_tpl_A ++ language ++ code_tpl_B ++ pyStrip requirements
        ++ code_tpl_C ++ language ++ code_tpl_D ++ p.example_filename ++ code_tpl_E
      = (code_tpl_A ++ language
          ++ " engineer. Generate a single, self-contained source file.\n\n    Requirements:".toList)
        ++ '\n' :: ((sp4 ++ pyStrip requirements)
          ++ '\n' :: ("\n    Constraints:\n    - Use idiomatic, minimal, production-quality ".toList
            ++ language ++ code_tpl_D ++ p.example_filename ++ code_tpl_E)) := by
      rw [code_tpl_B_seam, code_tpl_C_seam]
      simp
    rw [hT]
    apply dedent_occursIn_line
    · intro hmem
      rcases List.mem_append.mp hmem with h | h
      · revert h; decide
      · exact hR (mem_of_mem_pyStrip h)
    · rw [hrc]
      exact wsOnlyLine_false_of_mem (by simp) hci
    · simp [sp4]
    · rw [hrc]
      exact lineIndent_sp4_cons t hci

lemma code_template_contains_fname (requirements language : List Char) (p : LangProfile)
    (hf : ('\n' : Char) ∉ p.example_filename) :
    occursIn p.example_filename (code_template requirements language p) := by
  rw [code_template]
  have hT : code_tpl_A ++ language ++ code_tpl_B ++ pyStrip requirements
      ++ code_tpl_C ++ language ++ code_tpl_D ++ p.example_filename ++ code_tpl_E
    = (code_tpl_A ++ language ++ code_tpl_B ++ pyStrip requirements ++ code_tpl_C ++ language
        ++ ".\n    - Include clear function/class names.\n    - Avoid placeholders and pseudo-code.\n    - If configuration is needed, include sane defaults in code.\n    - Provide only the code for one file. Do NOT include explanations.".toList)
      ++ '\n' :: ((sp4 ++ ("- Prefer a filename like: ".toList ++ p.example_filename))
        ++ '\n' :: "\n    Output strictly as a fenced code block with the correct language.\n    ".toList) := by
    rw [code_tpl_D_seam, code_tpl_E_seam]
    simp
  rw [hT]
  have hocc : occursIn p.example_filename
      ("- Prefer a filename like: ".toList ++ p.example_filename) :=
    ⟨"- Prefer a filename like: ".toList, [], by simp⟩
  refine occursIn_trans hocc (dedent_occursIn_line _ _ _ _ ?_ ?_ ?_ ?_)
  · intro hmem
    rcases List.mem_append.mp hmem with h | h
    · revert h; decide
    · rcases List.mem_append.mp h with h2 | h2
      · revert h2; decide
      · exact hf h2
  · exact @wsOnlyLine_false_of_mem _ '-'
      (List.mem_append.mpr (Or.inr (List.mem_append.mpr (Or.inl (by decide)))))
      (by decide)
  · simp [sp4]
  · rw [show ("- Prefer a filename like: ".toList : List Char) ++ p.example_filename
        = '-' :: (" Prefer a filename like: ".toList ++ p.example_filename) from by
      rw [show ("- Prefer a filename like: ".toList : List Char)
          = '-' :: " Prefer a filename like: ".toList from by decide]
      simp]
    exact lineIndent_sp4_cons _ (by decide)

lemma lookupProfile_cases {L : List Char} {p : LangProfile} (h : lookupProfile L = some p) :
    p = pythonProfile ∨ p = javaProfile ∨ p = javascriptProfile := by
  rw [lookupProfile] at h
  split_ifs at h
  · exact Or.inl (Option.some.inj h).symm
  · exact Or.inr (Or.inl (Option.some.inj h).symm)
  · exact Or.inr (Or.inr (Option.some.inj h).symm)

/-- Value of an ok result (empty string stands for an uncaught exception);
evaluation helper for closed statements. -/
def exVal (e : Except PyExc (List Char)) : List Char :=
  match e with
  | Except.ok v => v
  | Except.error _ => []

/-- C7 fails as stated: with the non-empty requirements string "x " and language
python, the built prompt does not contain "x " verbatim, because the builder embeds
the stripped requirements. -/
theorem C7_cex :
    containsSub ("x ".toList) (exVal (code_prompt ("x ".toList) ("python".toList))) = false := by
  decide

/-- C7 amended: for every supported language and newline-free requirements string,
the code prompt contains the stripped requirements verbatim and contains the
example filename from the language profile. -/
theorem C7_prompt_contains (L : List Char) (p : LangProfile) (R : List Char)
    (hp : lookupProfile L = some p) (hR : R ≠ [])
    (hnl : ('\n' : Char) ∉ R) :
    ∃ t, code_prompt R L = Except.ok t
      ∧ containsSub (pyStrip R) t = true
      ∧ containsSub p.example_filename t = true := by
  refine ⟨code_template R L p, ?_, ?_, ?_⟩
  · rw [code_prompt, subscriptProfile, hp]
    rfl
  · exact containsSub_of_occursIn (code_template_contains_req R L p hnl)
  · have hf : ('\n' : Char) ∉ p.example_filename := by
      rcases lookupProfile_cases hp with rfl | rfl | rfl <;> decide
    exact containsSub_of_occursIn (code_template_contains_fname R L p hf)

/-- Witness for the amended C7 at a concrete language and requirements string. -/
theorem C7_witness :
    ∃ t, code_prompt ("make a tiny url service".toList) ("java".toList) = Except.ok t
      ∧ containsSub (pyStrip ("make a tiny url service".toList)) t = true
      ∧ containsSub javaProfile.example_filename t = true :=
  C7_prompt_contains ("java".toList) javaProfile ("make a tiny url service".toList)
    (by decide) (by decide) (by decide)

/-! Orchestration callbacks (src/app.py lines 180-229). The remote completion is
an oracle argument `complete`; the view/download/alert outputs of a callback are
modelled by `Triple`; a download file by its (filename, content) pair. -/

/-- A UI update as produced by `gr.update`: visibility and value. -/
structure GrUpdate where
  visible : Bool
  value : List Char
deriving DecidableEq

/-- Return triple of a callback: rendered view value, optional written file
(filename component and content) backing the download button, alert update. -/
structure Triple where
  view : List Char
  file_path : Option (List Char × List Char)
  alert : GrUpdate
deriving DecidableEq

/-- Callback `on_generate_code` (src/app.py lines 180-191). -/
def on_generate_code (complete : List Char → List Char) (ts : List Char)
    (requirements language : List Char) : Except PyExc Triple :=
  if requirements = [] ∨ language = [] then
    Except.ok ⟨[], none,
      ⟨true, "Please enter requirements and choose a language.".toList⟩⟩
  else if lookupProfile language = none then
    Except.ok ⟨[], none, ⟨true, "Unsupported language: ".toList ++ language⟩⟩
  else
    pyBind (code_prompt requirements language) (fun prompt =>
      pyBind (subscriptProfile language) (fun p =>
        pyBind (llm_fenced_block_run (complete prompt) p.fence_lang) (fun raw_code =>
          Except.ok ⟨wrap_as_markdown_code raw_code p.fence_lang,
            some (write_temp_file raw_code p.example_filename ts),
            ⟨false, []⟩⟩)))

/-- Callback `on_generate_tests` (src/app.py lines 193-210); note there is no
membership guard on the language before the profile subscripts. -/
def on_generate_tests (complete : List Char → List Char) (ts : List Char)
    (current_code_md language : List Char) : Except PyExc Triple :=
  if current_code_md = [] ∨ language = [] then
    Except.ok ⟨[], none,
      ⟨true, "Generate code first (or paste code) and choose a language.".toList⟩⟩
  else
    pyBind (reextract_run current_code_md) (fun code =>
      pyBind (tests_prompt code language) (fun prompt =>
        pyBind (subscriptProfile language) (fun p =>
          pyBind (llm_fenced_block_run (complete prompt) p.fence_lang) (fun raw_tests =>
            Except.ok ⟨wrap_as_markdown_code raw_tests p.fence_lang,
              some (write_temp_file raw_tests p.example_test_filename ts),
              ⟨false, []⟩⟩))))

/-- Callback `on_generate_docs` (src/app.py lines 212-229); extraction and the
view wrapper use the fixed "markdown" fence tag, persistence the README name. -/
def on_generate_docs (complete : List Char → List Char) (ts : List Char)
    (current_code_md language : List Char) : Except PyExc Triple :=
  if current_code_md = [] ∨ language = [] then
    Except.ok ⟨[], none,
      ⟨true, "Generate code first (or paste code) and choose a language.".toList⟩⟩
  else
    pyBind (reextract_run current_code_md) (fun code =>
      pyBind (docs_prompt code language) (fun prompt =>
        pyBind (llm_fenced_block_run (complete prompt) ("markdown".toList)) (fun raw_md =>
          pyBind (subscriptProfile language) (fun p =>
            Except.ok ⟨wrap_as_markdown_code raw_md ("markdown".toList),
              some (write_temp_file raw_md p.readme_name ts),
              ⟨false, []⟩⟩))))

/-- C4: generate-code with empty requirements or empty language returns an Error
triple with a visible non-empty human-readable message and no file path, and no
artifact file is written. -/
theorem C4_generate_code_missing_input (complete : List Char → List Char) (ts : List Char)
    (requirements language : List Char) (h : requirements = [] ∨ language = []) :
    ∃ t : Triple, on_generate_code complete ts requirements language = Except.ok t
      ∧ t.alert.visible = true ∧ t.alert.value ≠ [] ∧ t.file_path = none := by
  refine ⟨⟨[], none, ⟨true, "Please enter requirements and choose a language.".toList⟩⟩,
    ?_, rfl, by decide, rfl⟩
  rw [on_generate_code, if_pos h]

/-- Witness for C4 at empty requirements. -/
theorem C4_witness :
    ∃ t : Triple,
      on_generate_code (fun _ => []) ("20260101-000000".toList) [] ("python".toList)
          = Except.ok t
        ∧ t.alert.visible = true ∧ t.alert.value ≠ [] ∧ t.file_path = none :=
  C4_generate_code_missing_input (fun _ => []) ("20260101-000000".toList) [] ("python".toList)
    (Or.inl rfl)

/-- C5 fails as stated: generate-tests invoked with the unknown language "ruby"
raises KeyError out of the callback instead of being recovered locally as an
Error-state triple. -/
theorem C5_cex :
    on_generate_tests (fun _ => []) ("20260101-000000".toList) ("code".toList) ("ruby".toList)
      = Except.error PyExc.keyError := by
  rfl

/-- C5 amended: only generate-code recovers an unknown language locally with an
Error triple; generate-tests and generate-docs instead propagate a KeyError from
the profile subscript. -/
theorem C5_unsupported_language (complete : List Char → List Char) (ts : List Char)
    (requirements md language : List Char)
    (hl : lookupProfile language = none)
    (hreq : requirements ≠ []) (hmd : md ≠ []) (hlang : language ≠ []) :
    on_generate_code complete ts requirements language
        = Except.ok ⟨[], none, ⟨true, "Unsupported language: ".toList ++ language⟩⟩
      ∧ on_generate_tests complete ts md language = Except.error PyExc.keyError
      ∧ on_generate_docs complete ts md language = Except.error PyExc.keyError := by
  have hguard1 : ¬(requirements = [] ∨ language = []) := by
    rintro (h | h)
    exacts [hreq h, hlang h]
  have hguard2 : ¬(md = [] ∨ language = []) := by
    rintro (h | h)
    exacts [hmd h, hlang h]
  refine ⟨?_, ?_, ?_⟩
  · rw [on_generate_code, if_neg hguard1, if_pos hl]
  · rw [on_generate_tests, if_neg hguard2, reextract_run_eq]
    simp [pyBind, tests_prompt, subscriptProfile, hl]
  · rw [on_generate_docs, if_neg hguard2, reextract_run_eq]
    simp [pyBind, docs_prompt, subscriptProfile, hl]

/-- Witness for the amended C5 at the concrete unknown language "ruby". -/
theorem C5_witness :
    on_generate_code (fun _ => []) ("20260101-000000".toList) ("reqs".toList) ("ruby".toList)
        = Except.ok ⟨[], none, ⟨true, "Unsupported language: ".toList ++ "ruby".toList⟩⟩
      ∧ on_generate_tests (fun _ => []) ("20260101-000000".toList) ("view".toList)
          ("ruby".toList) = Except.error PyExc.keyError
      ∧ on_generate_docs (fun _ => []) ("20260101-000000".toList) ("view".toList)
          ("ruby".toList) = Except.error PyExc.keyError :=
  C5_unsupported_language (fun _ => []) ("20260101-000000".toList) ("reqs".toList)
    ("view".toList) ("ruby".toList) (by decide) (by decide) (by decide) (by decide)

/-- C8: on success, generate-docs extracts from the model response with the
"markdown" fence tag regardless of the target language, wraps the displayed view
in a "markdown"-tagged fence, and persists the artifact under the profile README
filename. -/
theorem C8_docs_markdown (complete : List Char → List Char) (ts : List Char)
    (md language : List Char) (p : LangProfile)
    (hp : lookupProfile language = some p) (hmd : md ≠ []) (hlang : language ≠ []) :
    on_generate_docs complete ts md language
      = Except.ok
          ⟨wrap_as_markdown_code
              (extract_three_tier
                (complete (docs_template (reextract md) language p)) ("markdown".toList))
              ("markdown".toList),
            some (write_temp_file
              (extract_three_tier
                (complete (docs_template (reextract md) language p)) ("markdown".toList))
              p.readme_name ts),
            ⟨false, []⟩⟩ := by
  have hguard : ¬(md = [] ∨ language = []) := by
    rintro (h | h)
    exacts [hmd h, hlang h]
  rw [on_generate_docs, if_neg hguard, reextract_run_eq]
  simp [pyBind, docs_prompt, subscriptProfile, hp, llm_run_eq_tier]

/-- Witness for C8 at the concrete language python and a fixed oracle response. -/
theorem C8_witness :
    on_generate_docs (fun _ => "OK".toList) ("20260101-000000".toList) ("x".toList)
        ("python".toList)
      = Except.ok
          ⟨wrap_as_markdown_code (extract_three_tier ("OK".toList) ("markdown".toList))
              ("markdown".toList),
            some (write_temp_file (extract_three_tier ("OK".toList) ("markdown".toList))
              pythonProfile.readme_name ("20260101-000000".toList)),
            ⟨false, []⟩⟩ :=
  C8_docs_markdown (fun _ => "OK".toList) ("20260101-000000".toList) ("x".toList)
    ("python".toList) pythonProfile (by decide) (by decide) (by decide)

end AICodeGen
